import Mathlib

/-!
Verification development for `network_matrix.py`, a NumPy multilayer
perceptron trained by mini-batch stochastic gradient descent.

Modelling conventions.

* A NumPy 2-d array is modelled as `Mat := ℕ → ℕ → ℚ`: a total function
  giving the entry at row `i`, column `j`.  Shapes are carried separately
  where an operation needs them (an inner dimension of a matrix product,
  a batch width, an output dimension for `argmax`).  Float arithmetic is
  modelled by exact rational arithmetic.
* `sigmoid(z) = 1/(1+exp(-z))` is a transcendental floating-point map; it
  is modelled by an abstract parameter `sig : ℚ → ℚ` that every network
  operation takes explicitly.  No claim below depends on its values.
  `sigmoid_prime` is defined from `sig` exactly as in the source
  (`sigmoid(z)*(1-sigmoid(z))`).
* A bias is a column vector, i.e. a `Mat` whose entries are read at
  column 0; adding it to a matrix broadcasts that single column, exactly
  as NumPy broadcasting does in `np.dot(w, activation) + b`.
* Python lists of per-layer arrays become `List Mat`; `zip`-driven loops
  become `List.zipWith`.
* A Python call that raises (`TypeError` from an arity mismatch, or from
  iterating over `None`) is modelled by `Option`, with `none` for the
  raising computation.
-/

/-- A NumPy 2-d array of rationals: entry at row `i`, column `j`. -/
abbrev Mat : Type := ℕ → ℕ → ℚ

/-- The all-zeros matrix (`np.zeros`), also used as a `getD` default. -/
def mat0 : Mat := fun _ _ => 0

/-- `np.dot A B` where the inner dimension (columns of `A` / rows of `B`)
is `k`. -/
def matMul (k : ℕ) (A B : Mat) : Mat :=
  fun i j => ∑ t ∈ Finset.range k, A i t * B t j

/-- `A.transpose()`. -/
def transpose (A : Mat) : Mat := fun i j => A j i

/-- `A + b` for a column vector `b` (NumPy broadcasting of a `(k,1)`
array over the columns of a `(k,m)` array). -/
def matAddVec (A b : Mat) : Mat := fun i j => A i j + b i 0

/-- Elementwise (Hadamard) product `A * B`. -/
def hadamard (A B : Mat) : Mat := fun i j => A i j * B i j

/-- Elementwise difference `A - B`. -/
def matSub (A B : Mat) : Mat := fun i j => A i j - B i j

/-- Elementwise division of a matrix by a scalar, `A / c`. -/
def divMat (A : Mat) (c : ℚ) : Mat := fun i j => A i j / c

/-- `np.mean(A, axis=1, keepdims=True)` over `m` columns: every column of
the result holds the row means. -/
def meanCols (m : ℕ) (A : Mat) : Mat :=
  fun i _ => (∑ s ∈ Finset.range m, A i s) / (m : ℚ)

/-- Elementwise application of the (abstract) sigmoid. -/
def matSig (sig : ℚ → ℚ) (A : Mat) : Mat := fun i j => sig (A i j)

/-- `sigmoid_prime(z) = sigmoid(z) * (1 - sigmoid(z))` from the source,
with the sigmoid abstracted as `sig`. -/
def sigmoid_prime (sig : ℚ → ℚ) (z : ℚ) : ℚ := sig z * (1 - sig z)

/-- Elementwise `sigmoid_prime`. -/
def matSigp (sig : ℚ → ℚ) (A : Mat) : Mat :=
  fun i j => sigmoid_prime sig (A i j)

/-- `np.sign` on a scalar: `-1`, `0` or `1`. -/
def npSign (x : ℚ) : ℚ := if x < 0 then -1 else if 0 < x then 1 else 0

/-- `QuadraticCost.delta(Z, A, Y) = (A - Y) * sigmoid_prime(Z)`. -/
def QuadraticCost.delta (sig : ℚ → ℚ) (Z A Y : Mat) : Mat :=
  hadamard (matSub A Y) (matSigp sig Z)

/-- `CrossEntropyCost.delta(Z, A, Y) = A - Y`; the parameter `Z` is not
used by the method (kept for interface uniformity). -/
def CrossEntropyCost.delta (_Z A Y : Mat) : Mat := matSub A Y

/-- The cost-function strategy selected at `Network` construction. -/
inductive CostFn : Type
  | quadratic : CostFn
  | crossEntropy : CostFn

/-- Dispatch of `(self.cost).delta(Z, A, Y)`. -/
def CostFn.delta (c : CostFn) (sig : ℚ → ℚ) (Z A Y : Mat) : Mat :=
  match c with
  | CostFn.quadratic => QuadraticCost.delta sig Z A Y
  | CostFn.crossEntropy => CrossEntropyCost.delta Z A Y

/-- One layer transition of the network: the weight matrix `w` of shape
`(fanOut, fanIn)` (an element of `self.weights`, shape
`(sizes[l+1], sizes[l])`) together with its bias column vector `b` (an
element of `self.biases`).  The layer list of a network is the
`zip(self.biases, self.weights)` the source iterates over, with the
shape information from `sizes` attached. -/
structure Layer : Type where
  fanIn : ℕ
  fanOut : ℕ
  w : Mat
  b : Mat

/-- The pre-activation of one layer: `z = np.dot(w, activation) + b`. -/
def layerZ (L : Layer) (a : Mat) : Mat :=
  matAddVec (matMul L.fanIn L.w a) L.b

/-- The activation of one layer: `sigmoid(z)`. -/
def layerA (sig : ℚ → ℚ) (L : Layer) (a : Mat) : Mat :=
  matSig sig (layerZ L a)

/-- The `activations` list cached by `backprop`'s forward pass: the input
batch followed by each layer's activation (length `layers.length + 1`;
entry `l` is the input activation of layer `l`). -/
def Network.activations (sig : ℚ → ℚ) : List Layer → Mat → List Mat
  | [], a => [a]
  | L :: rest, a => a :: Network.activations sig rest (layerA sig L a)

/-- `Network.feedforward`: `for b, w in zip(self.biases, self.weights):
a = sigmoid(np.dot(w, a) + b)`. -/
def Network.feedforward (sig : ℚ → ℚ) (layers : List Layer) (a : Mat) : Mat :=
  layers.foldl (fun acc L => layerA sig L acc) a

/-- The error signal `δ` of the first layer of the given layer suffix,
for input activation `a` of that suffix and stacked labels `Y`: the
quantity the source calls `delta` when the backward loop reaches that
layer.  At the last layer it is `cost.delta(z, activation, Y)`; below,
`δ^l = (W^{l+1})ᵗ·δ^{l+1} ⊙ sigmoid_prime(z^l)`. -/
def deltaSuffix (sig : ℚ → ℚ) (cost : CostFn) (Y : Mat) :
    List Layer → Mat → Mat
  | [], _ => mat0
  | [L], a => cost.delta sig (layerZ L a) (layerA sig L a) Y
  | L :: L2 :: rest, a =>
      hadamard
        (matMul L2.fanOut (transpose L2.w)
          (deltaSuffix sig cost Y (L2 :: rest) (layerA sig L a)))
        (matSigp sig (layerZ L a))

/-- The result of the backward pass over a suffix of the layer list:
the error signal `delta` of the suffix's first layer, and the per-layer
gradient lists `nabla_b`, `nabla_w` for the suffix. -/
structure BPResult : Type where
  delta : Mat
  nabla_b : List Mat
  nabla_w : List Mat

/-- `Network.backprop`, lines 242-273, as a recursion over the layer
list (the source's forward caching loop plus backward indexing loop,
fused).  `m = X.shape[1]` is the batch width and `a` the input
activation of the first layer of the suffix.  At each layer:
`nabla_b = np.mean(delta, axis=1, keepdims=True)` and
`nabla_w = np.dot(delta, a_prev.transpose()) / m`.  The `[]` case is
unreachable for a real network (`sizes` has length ≥ 2, so there is at
least one layer; the Python code would raise an IndexError on `zs[-1]`
for a zero-layer network). -/
def backpropAux (sig : ℚ → ℚ) (cost : CostFn) (m : ℕ) (Y : Mat) :
    List Layer → Mat → BPResult
  | [], _ => ⟨mat0, [], []⟩
  | [L], a =>
      let z := layerZ L a
      let act := matSig sig z
      let delta := cost.delta sig z act Y
      ⟨delta, [meanCols m delta], [divMat (matMul m delta (transpose a)) m]⟩
  | L :: L2 :: rest, a =>
      let z := layerZ L a
      let act := matSig sig z
      let r := backpropAux sig cost m Y (L2 :: rest) act
      let delta :=
        hadamard (matMul L2.fanOut (transpose L2.w) r.delta) (matSigp sig z)
      ⟨delta, meanCols m delta :: r.nabla_b,
        divMat (matMul m delta (transpose a)) m :: r.nabla_w⟩

/-- `Network.backprop(X, Y)` returning `(nabla_b, nabla_w)`;
`m = X.shape[1]` is the number of stacked columns (batch size). -/
def Network.backprop (sig : ℚ → ℚ) (cost : CostFn) (layers : List Layer)
    (X Y : Mat) (m : ℕ) : List Mat × List Mat :=
  let r := backpropAux sig cost m Y layers X
  (r.nabla_b, r.nabla_w)

/-- The matrix holding column `s` of `A` in every column: the single
training sample `s` of a column-stacked batch, as the one-column batch
the source would build from that sample alone. -/
def colMat (A : Mat) (s : ℕ) : Mat := fun i _ => A i s

/-- C8: the cross-entropy cost's `delta(Z, A, Y)` equals `A - Y` exactly,
and its value does not depend on the pre-activation argument: any two
pre-activation matrices yield the same delta. -/
theorem crossEntropy_delta_pred_sub_target (sig : ℚ → ℚ) (Z Z' A Y : Mat) :
    CostFn.delta CostFn.crossEntropy sig Z A Y = matSub A Y
    ∧ CostFn.delta CostFn.crossEntropy sig Z A Y
        = CostFn.delta CostFn.crossEntropy sig Z' A Y :=
  ⟨rfl, rfl⟩

/-- The state of the `LearningRate` tracker: `patience`, `best_accuracy`
(initialized to 0), `counter`, `num_halves`, and the `accuracies` log.
Accuracies are the integer counts returned by `evaluate`. -/
structure LearningRateState : Type where
  patience : ℕ
  best_accuracy : ℤ
  counter : ℕ
  num_halves : ℕ
  accuracies : List ℤ

/-- `LearningRate.__init__(patience)`. -/
def LearningRate.init (patience : ℕ) : LearningRateState :=
  ⟨patience, 0, 0, 0, []⟩

/-- `LearningRate.should_halve(current_accuracy)`, lines 114-126: append
the accuracy; on strict improvement update `best_accuracy` and reset
`counter`, otherwise increment `counter`; then if `counter` reached
`patience`, reset `counter`, bump `num_halves`, and signal a halve.
Returned as (signal, new state). -/
def LearningRate.should_halve (st : LearningRateState)
    (current_accuracy : ℤ) : Bool × LearningRateState :=
  let st1 := { st with accuracies := st.accuracies ++ [current_accuracy] }
  let st2 :=
    if st1.best_accuracy < current_accuracy then
      { st1 with best_accuracy := current_accuracy, counter := 0 }
    else
      { st1 with counter := st1.counter + 1 }
  if st2.patience ≤ st2.counter then
    (true, { st2 with counter := 0, num_halves := st2.num_halves + 1 })
  else
    (false, st2)

/-- The signals and final state from feeding a list of accuracies to
`should_halve` one call at a time. -/
def LearningRate.run :
    LearningRateState → List ℤ → List Bool × LearningRateState
  | st, [] => ([], st)
  | st, a :: rest =>
      let r := LearningRate.should_halve st a
      let t := LearningRate.run r.2 rest
      (r.1 :: t.1, t.2)

/-- The state of the `EarlyStopping` tracker (no `num_halves`). -/
structure EarlyStoppingState : Type where
  patience : ℕ
  best_accuracy : ℤ
  counter : ℕ
  accuracies : List ℤ

/-- `EarlyStopping.should_stop(current_accuracy)`, lines 93-103: same
transition as `should_halve`, but the stop signal does not reset
`counter`. -/
def EarlyStopping.should_stop (st : EarlyStoppingState)
    (current_accuracy : ℤ) : Bool × EarlyStoppingState :=
  let st1 := { st with accuracies := st.accuracies ++ [current_accuracy] }
  let st2 :=
    if st1.best_accuracy < current_accuracy then
      { st1 with best_accuracy := current_accuracy, counter := 0 }
    else
      { st1 with counter := st1.counter + 1 }
  if st2.patience ≤ st2.counter then (true, st2) else (false, st2)

theorem should_halve_patience (st : LearningRateState) (a : ℤ) :
    (LearningRate.should_halve st a).2.patience = st.patience := by
  unfold LearningRate.should_halve
  dsimp only
  split <;> split <;> rfl

theorem should_halve_num_halves (st : LearningRateState) (a : ℤ) :
    (LearningRate.should_halve st a).2.num_halves
      = if (LearningRate.should_halve st a).1 then st.num_halves + 1
        else st.num_halves := by
  unfold LearningRate.should_halve
  dsimp only
  split <;> split <;> rfl

theorem should_halve_num_halves_le (st : LearningRateState) (a : ℤ) :
    st.num_halves ≤ (LearningRate.should_halve st a).2.num_halves := by
  rw [should_halve_num_halves]
  split <;> omega

/-- C10: with `patience = 0`, every `should_halve` call returns `True`
and increments `num_halves`, and every `should_stop` call returns
`True`, even on a strict improvement of the accuracy. -/
theorem patience_zero_always_signals (st : LearningRateState)
    (st' : EarlyStoppingState) (a : ℤ)
    (h : st.patience = 0) (h' : st'.patience = 0) :
    (LearningRate.should_halve st a).1 = true
    ∧ (LearningRate.should_halve st a).2.num_halves = st.num_halves + 1
    ∧ (EarlyStopping.should_stop st' a).1 = true := by
  unfold LearningRate.should_halve EarlyStopping.should_stop
  dsimp only
  rw [h, h']
  refine ⟨?_, ?_, ?_⟩ <;> split <;> simp

/-- Witness for C10 at a concrete improving call: patience 0, fresh
tracker states, accuracy 5 strictly above the best accuracy 0. -/
theorem patience_zero_always_signals_witness :
    (LearningRate.should_halve (LearningRate.init 0) 5).1 = true
    ∧ (LearningRate.should_halve (LearningRate.init 0) 5).2.num_halves
        = (LearningRate.init 0).num_halves + 1
    ∧ (EarlyStopping.should_stop ⟨0, 0, 0, []⟩ 5).1 = true :=
  patience_zero_always_signals (LearningRate.init 0) ⟨0, 0, 0, []⟩ 5
    (by decide) (by decide)

theorem should_halve_improve (st : LearningRateState) (a : ℤ)
    (hb : st.best_accuracy < a) (hp : 0 < st.patience) :
    LearningRate.should_halve st a
      = (false, ⟨st.patience, a, 0, st.num_halves, st.accuracies ++ [a]⟩) := by
  unfold LearningRate.should_halve
  dsimp only
  rw [if_pos hb, if_neg (by omega : ¬ st.patience ≤ 0)]

theorem should_halve_noimp_below (st : LearningRateState) (a : ℤ)
    (hb : ¬ st.best_accuracy < a) (hc : st.counter + 1 < st.patience) :
    LearningRate.should_halve st a
      = (false, ⟨st.patience, st.best_accuracy, st.counter + 1,
          st.num_halves, st.accuracies ++ [a]⟩) := by
  unfold LearningRate.should_halve
  dsimp only
  rw [if_neg hb, if_neg (by omega : ¬ st.patience ≤ st.counter + 1)]

theorem should_halve_noimp_reach (st : LearningRateState) (a : ℤ)
    (hb : ¬ st.best_accuracy < a) (hc : st.patience ≤ st.counter + 1) :
    LearningRate.should_halve st a
      = (true, ⟨st.patience, st.best_accuracy, 0,
          st.num_halves + 1, st.accuracies ++ [a]⟩) := by
  unfold LearningRate.should_halve
  dsimp only
  rw [if_neg hb, if_pos hc]

theorem run_cons (st : LearningRateState) (a : ℤ) (rest : List ℤ) :
    LearningRate.run st (a :: rest)
      = ((LearningRate.should_halve st a).1
            :: (LearningRate.run (LearningRate.should_halve st a).2 rest).1,
          (LearningRate.run (LearningRate.should_halve st a).2 rest).2) := rfl

theorem run_increasing_all_false (seq : List ℤ) :
    ∀ st : LearningRateState, 0 < st.patience → st.counter = 0 →
      List.Chain' (fun x y : ℤ => x < y) (st.best_accuracy :: seq) →
      (LearningRate.run st seq).1 = List.replicate seq.length false := by
  induction seq with
  | nil => intro st _ _ _; rfl
  | cons a rest ih =>
      intro st hp _ hch
      rcases List.chain'_cons.mp hch with ⟨hba, hch'⟩
      simp only [LearningRate.run, should_halve_improve st a hba hp]
      rw [ih ⟨st.patience, a, 0, st.num_halves, st.accuracies ++ [a]⟩ hp rfl hch']
      simp [List.replicate_succ]

theorem run_nonimproving (seq : List ℤ) :
    ∀ st : LearningRateState, 0 < st.patience →
      (∀ x ∈ seq, x ≤ st.best_accuracy) →
      st.counter + seq.length = st.patience →
      0 < seq.length →
      (LearningRate.run st seq).1
          = List.replicate (seq.length - 1) false ++ [true]
        ∧ (LearningRate.run st seq).2.counter = 0
        ∧ (LearningRate.run st seq).2.num_halves = st.num_halves + 1 := by
  induction seq with
  | nil => intro st _ _ _ h; exact absurd h (by simp)
  | cons a rest ih =>
      intro st hp hmem hlen _
      have hb : ¬ st.best_accuracy < a := not_lt.mpr (hmem a (by simp))
      cases rest with
      | nil =>
          have hth : st.patience ≤ st.counter + 1 := by
            simp only [List.length_cons, List.length_nil] at hlen; omega
          simp [LearningRate.run, should_halve_noimp_reach st a hb hth]
      | cons b rest' =>
          have hlt : st.counter + 1 < st.patience := by
            simp only [List.length_cons] at hlen; omega
          have hrec := ih ⟨st.patience, st.best_accuracy, st.counter + 1,
              st.num_halves, st.accuracies ++ [a]⟩ hp
            (fun x hx => hmem x (by simp [hx]))
            (by simp only [List.length_cons] at hlen ⊢; omega)
            (by simp)
          rw [run_cons, should_halve_noimp_below st a hb hlt]
          dsimp only
          refine ⟨?_, hrec.2.1, hrec.2.2⟩
          rw [hrec.1]
          simp only [List.length_cons]
          rw [show (rest'.length + 1 + 1) - 1 = rest'.length + 1 by omega,
            List.replicate_succ]
          simp

/-- C2 as stated is false on the code: `LearningRate(patience=1)` has
positive patience and the accuracy sequence `[0, 1]` is strictly
increasing, yet the very first call `should_halve(0)` already triggers a
halve — the fresh tracker's `best_accuracy` is `0`, so the accuracy `0`
is not a strict improvement and `counter` immediately reaches
`patience`. -/
theorem should_halve_increasing_cex :
    0 < (LearningRate.init 1).patience
    ∧ (0 : ℤ) < 1
    ∧ (LearningRate.run (LearningRate.init 1) [0, 1]).1.contains true
        = true := by decide

/-- C2 (amended): for every tracker state with positive patience:
a strict improvement updates `best_accuracy`, resets `counter` to 0 and
does not halve; a non-improvement leaves `best_accuracy` and increments
`counter`, except that when the incremented counter reaches `patience`
the call signals a halve and resets `counter` to 0 (bumping
`num_halves`); feeding a strictly increasing accuracy sequence whose
first element strictly exceeds the current `best_accuracy`, from a state
with `counter = 0`, never triggers a halve; and feeding `patience`
consecutive non-improving accuracies from `counter = 0` triggers exactly
one halve — on the last call — and resets `counter` to 0. -/
theorem should_halve_tracker_spec (st : LearningRateState) (a : ℤ)
    (seq : List ℤ) (hp : 0 < st.patience) :
    (st.best_accuracy < a →
        (LearningRate.should_halve st a).1 = false
      ∧ (LearningRate.should_halve st a).2.best_accuracy = a
      ∧ (LearningRate.should_halve st a).2.counter = 0)
    ∧ (¬ st.best_accuracy < a → st.counter + 1 < st.patience →
        (LearningRate.should_halve st a).1 = false
      ∧ (LearningRate.should_halve st a).2.best_accuracy = st.best_accuracy
      ∧ (LearningRate.should_halve st a).2.counter = st.counter + 1)
    ∧ (¬ st.best_accuracy < a → st.patience ≤ st.counter + 1 →
        (LearningRate.should_halve st a).1 = true
      ∧ (LearningRate.should_halve st a).2.counter = 0
      ∧ (LearningRate.should_halve st a).2.num_halves = st.num_halves + 1)
    ∧ (st.counter = 0 →
        List.Chain' (fun x y : ℤ => x < y) (st.best_accuracy :: seq) →
        (LearningRate.run st seq).1 = List.replicate seq.length false)
    ∧ (st.counter = 0 → seq.length = st.patience →
        (∀ x ∈ seq, x ≤ st.best_accuracy) →
        (LearningRate.run st seq).1
            = List.replicate (st.patience - 1) false ++ [true]
      ∧ (LearningRate.run st seq).2.counter = 0
      ∧ (LearningRate.run st seq).2.num_halves = st.num_halves + 1) := by
  refine ⟨?_, ?_, ?_, ?_, ?_⟩
  · intro hb
    rw [should_halve_improve st a hb hp]
    exact ⟨rfl, rfl, rfl⟩
  · intro hb hc
    rw [should_halve_noimp_below st a hb hc]
    exact ⟨rfl, rfl, rfl⟩
  · intro hb hc
    rw [should_halve_noimp_reach st a hb hc]
    exact ⟨rfl, rfl, rfl⟩
  · intro hc hch
    exact run_increasing_all_false seq st hp hc hch
  · intro hc hlen hmem
    have h := run_nonimproving seq st hp hmem (by omega) (by omega)
    exact ⟨by rw [← hlen]; exact h.1, h.2.1, h.2.2⟩

/-- Witness for C2's amended theorem at `patience = 2`, accuracy `1`,
sequence `[0, 0]`. -/
theorem should_halve_tracker_spec_witness :
    0 < (LearningRate.init 2).patience
    ∧ (((LearningRate.init 2).best_accuracy < 1 →
          (LearningRate.should_halve (LearningRate.init 2) 1).1 = false
        ∧ (LearningRate.should_halve (LearningRate.init 2) 1).2.best_accuracy
            = 1
        ∧ (LearningRate.should_halve (LearningRate.init 2) 1).2.counter = 0)
      ∧ (¬ (LearningRate.init 2).best_accuracy < 1 →
            (LearningRate.init 2).counter + 1 < (LearningRate.init 2).patience →
          (LearningRate.should_halve (LearningRate.init 2) 1).1 = false
        ∧ (LearningRate.should_halve (LearningRate.init 2) 1).2.best_accuracy
            = (LearningRate.init 2).best_accuracy
        ∧ (LearningRate.should_halve (LearningRate.init 2) 1).2.counter
            = (LearningRate.init 2).counter + 1)
      ∧ (¬ (LearningRate.init 2).best_accuracy < 1 →
            (LearningRate.init 2).patience ≤ (LearningRate.init 2).counter + 1 →
          (LearningRate.should_halve (LearningRate.init 2) 1).1 = true
        ∧ (LearningRate.should_halve (LearningRate.init 2) 1).2.counter = 0
        ∧ (LearningRate.should_halve (LearningRate.init 2) 1).2.num_halves
            = (LearningRate.init 2).num_halves + 1)
      ∧ ((LearningRate.init 2).counter = 0 →
          List.Chain' (fun x y : ℤ => x < y)
            ((LearningRate.init 2).best_accuracy :: [0, 0]) →
          (LearningRate.run (LearningRate.init 2) [0, 0]).1
            = List.replicate ([0, 0] : List ℤ).length false)
      ∧ ((LearningRate.init 2).counter = 0 →
          ([0, 0] : List ℤ).length = (LearningRate.init 2).patience →
          (∀ x ∈ ([0, 0] : List ℤ), x ≤ (LearningRate.init 2).best_accuracy) →
          (LearningRate.run (LearningRate.init 2) [0, 0]).1
              = List.replicate ((LearningRate.init 2).patience - 1) false
                  ++ [true]
        ∧ (LearningRate.run (LearningRate.init 2) [0, 0]).2.counter = 0
        ∧ (LearningRate.run (LearningRate.init 2) [0, 0]).2.num_halves
            = (LearningRate.init 2).num_halves + 1)) :=
  ⟨by decide, should_halve_tracker_spec (LearningRate.init 2) 1 [0, 0]
    (by decide)⟩

/-- `np.argmax` over the `k` rows of a column vector: the index of the
first maximal entry. -/
def argmax (k : ℕ) (v : ℕ → ℚ) : ℕ :=
  (List.range k).foldl (fun best i => if v best < v i then i else best) 0

/-- `Network.evaluate(test_data)`, lines 281-293: the `test_results`
list pairs `np.argmax(self.feedforward(x))` with the label `y`, and the
result is `sum(int(x == y) ...)`.  Entries of `test_data` are (column
vector, integer class label); `k` is the output-layer width `sizes[-1]`
over which the argmax runs. -/
def Network.evaluate (sig : ℚ → ℚ) (layers : List Layer) (k : ℕ)
    (test_data : List (Mat × ℕ)) : ℕ :=
  let test_results := test_data.map
    (fun p =>
      (argmax k (fun i => Network.feedforward sig layers p.1 i 0), p.2))
  (test_results.map (fun q => if q.1 = q.2 then 1 else 0)).sum

/-- `SGD` runs `corrects = self.evaluate(test_data)` unconditionally
(line 203), even when `test_data` is `None`; iterating over `None` in
`evaluate`'s list comprehension raises a `TypeError`, modelled as
`none`. -/
def Network.evaluateOpt (sig : ℚ → ℚ) (layers : List Layer) (k : ℕ) :
    Option (List (Mat × ℕ)) → Option ℕ
  | none => none
  | some td => some (Network.evaluate sig layers k td)

/-- The epoch loop of `Network.SGD`, lines 194-217, projected onto the
state driving its control flow.  `corrects j` is the value produced by
the call `self.evaluate(test_data)` in epoch `j` (`none` when that call
raises, as it does whenever `test_data` is `None`); the shuffling and
the per-mini-batch parameter updates influence the loop only through
these accuracy counts, so they are abstracted into this oracle.  Each
epoch: feed the accuracy to `self.learning_rate.should_halve`; on a
halve signal set `eta = eta / 2`; then `break` once
`self.learning_rate.get_num_halves() >= 7`.  `j` is the index of the
next epoch and the second argument the number of epochs remaining.
Returns `(number of epochs executed, final eta, final tracker state)`,
or `none` when an epoch's evaluation raised. -/
def SGDgo (corrects : ℕ → Option ℤ) :
    ℕ → ℕ → ℚ → LearningRateState → Option (ℕ × ℚ × LearningRateState)
  | _, 0, eta, lr => some (0, eta, lr)
  | j, rem + 1, eta, lr =>
      match corrects j with
      | none => none
      | some c =>
          if 7 ≤ (LearningRate.should_halve lr c).2.num_halves then
            some (1,
              (if (LearningRate.should_halve lr c).1 then eta / 2 else eta),
              (LearningRate.should_halve lr c).2)
          else
            (SGDgo corrects (j + 1) rem
                (if (LearningRate.should_halve lr c).1 then eta / 2 else eta)
                (LearningRate.should_halve lr c).2).map
              (fun t => (t.1 + 1, t.2.1, t.2.2))

/-- The tracker state after feeding the accuracies
`acc j, …, acc (j+k-1)` to `should_halve` in order. -/
def feedFrom (acc : ℕ → ℤ) : ℕ → ℕ → LearningRateState → LearningRateState
  | _, 0, lr => lr
  | j, k + 1, lr =>
      feedFrom acc (j + 1) k (LearningRate.should_halve lr (acc j)).2

theorem feedFrom_num_halves_le (acc : ℕ → ℤ) (k : ℕ) :
    ∀ (j : ℕ) (lr : LearningRateState),
      lr.num_halves ≤ (feedFrom acc j k lr).num_halves := by
  induction k with
  | zero => intro j lr; exact le_refl _
  | succ k ih =>
      intro j lr
      exact le_trans (should_halve_num_halves_le lr (acc j)) (ih (j + 1) _)

theorem SGDgo_spec (acc : ℕ → ℤ) (rem : ℕ) :
    ∀ (j : ℕ) (eta : ℚ) (lr : LearningRateState), ∃ k eta' lr',
      SGDgo (fun i => some (acc i)) j rem eta lr = some (k, eta', lr')
      ∧ lr' = feedFrom acc j k lr
      ∧ eta' = eta / 2 ^ (lr'.num_halves - lr.num_halves)
      ∧ k ≤ rem
      ∧ (k < rem → 7 ≤ (feedFrom acc j k lr).num_halves)
      ∧ (∀ i, 0 < i → i < k → (feedFrom acc j i lr).num_halves < 7) := by
  induction rem with
  | zero =>
      intro j eta lr
      exact ⟨0, eta, lr, rfl, rfl, by simp, le_refl 0, by omega,
        fun i h1 h2 => absurd h2 (by omega)⟩
  | succ rem ih =>
      intro j eta lr
      have hstep : SGDgo (fun i => some (acc i)) j (rem + 1) eta lr
          = (if 7 ≤ (LearningRate.should_halve lr (acc j)).2.num_halves then
              some (1,
                (if (LearningRate.should_halve lr (acc j)).1 then eta / 2
                  else eta),
                (LearningRate.should_halve lr (acc j)).2)
            else
              (SGDgo (fun i => some (acc i)) (j + 1) rem
                  (if (LearningRate.should_halve lr (acc j)).1 then eta / 2
                    else eta)
                  (LearningRate.should_halve lr (acc j)).2).map
                (fun t => (t.1 + 1, t.2.1, t.2.2))) := rfl
      have hfeed1 : feedFrom acc j 1 lr
          = (LearningRate.should_halve lr (acc j)).2 := rfl
      have heta1 :
          (if (LearningRate.should_halve lr (acc j)).1 then eta / 2 else eta)
            = eta / 2 ^ ((LearningRate.should_halve lr (acc j)).2.num_halves
                - lr.num_halves) := by
        rw [should_halve_num_halves]
        by_cases hh : (LearningRate.should_halve lr (acc j)).1
        · rw [if_pos hh, if_pos hh]
          norm_num
        · rw [if_neg hh, if_neg hh]
          norm_num
      by_cases h7 : 7 ≤ (LearningRate.should_halve lr (acc j)).2.num_halves
      · refine ⟨1, _, _, by rw [hstep, if_pos h7], hfeed1.symm, ?_, by omega,
          fun _ => by rw [hfeed1]; exact h7,
          fun i h1 h2 => absurd (by omega : i = 0) (by omega)⟩
        exact heta1
      · obtain ⟨k0, eta'', lr'', heq, hfd, het, hk, hstop, hpre⟩ :=
          ih (j + 1)
            (if (LearningRate.should_halve lr (acc j)).1 then eta / 2 else eta)
            (LearningRate.should_halve lr (acc j)).2
        have hfeedS : ∀ n, feedFrom acc j (n + 1) lr
            = feedFrom acc (j + 1) n (LearningRate.should_halve lr (acc j)).2 :=
          fun n => rfl
        refine ⟨k0 + 1, eta'', lr'', ?_, ?_, ?_, by omega, ?_, ?_⟩
        · rw [hstep, if_neg h7, heq]
          rfl
        · rw [hfeedS k0, ← hfd]
        · rw [het, heta1]
          have hm1 : lr.num_halves
              ≤ (LearningRate.should_halve lr (acc j)).2.num_halves :=
            should_halve_num_halves_le lr (acc j)
          have hm2 : (LearningRate.should_halve lr (acc j)).2.num_halves
              ≤ lr''.num_halves := by
            rw [hfd]; exact feedFrom_num_halves_le acc k0 (j + 1) _
          have hexp :
              ((LearningRate.should_halve lr (acc j)).2.num_halves
                  - lr.num_halves)
                + (lr''.num_halves
                  - (LearningRate.should_halve lr (acc j)).2.num_halves)
              = lr''.num_halves - lr.num_halves := by omega
          rw [div_div, ← pow_add, hexp]
        · intro hlt
          rw [hfeedS k0]
          exact hstop (by omega)
        · intro i h1 h2
          cases i with
          | zero => exact absurd h1 (by omega)
          | succ i' =>
              rw [hfeedS i']
              rcases Nat.eq_zero_or_pos i' with h0 | hpos
              · subst h0
                simpa [feedFrom] using (by omega :
                  (LearningRate.should_halve lr (acc j)).2.num_halves < 7)
              · exact hpre i' hpos (by omega)

/-- C4: `evaluate` on the empty test set returns the integer 0 without
raising; but when `test_data` is absent (`None`), the unguarded call
`corrects = self.evaluate(test_data)` at line 203 raises a `TypeError`
(iterating over `None`), so every SGD run with absent test data fails in
its first epoch instead of proceeding with 0. -/
theorem evaluate_empty_and_sgd_absent (sig : ℚ → ℚ) (layers : List Layer)
    (k epochs : ℕ) (eta : ℚ) (lr : LearningRateState) :
    Network.evaluate sig layers k [] = 0
    ∧ Network.evaluateOpt sig layers k none = none
    ∧ SGDgo (fun _ => none) 0 (epochs + 1) eta lr = none :=
  ⟨rfl, rfl, rfl⟩

/-- C5: in every SGD run with test data present (per-epoch accuracies
given by the oracle `acc`), the loop runs some `k ≤ epochs` epochs and:
the tracker's final state is the fold of `should_halve` over the `k`
executed epochs' accuracies, fed in order; the final learning rate is
the initial one divided by 2 once per halve signalled (η/2^new
halvings); and the loop stops early exactly when the cumulative number
of halvings reaches the fixed bound 7 — after every earlier epoch the
count was still below 7, and if it stops before exhausting `epochs` the
count has reached 7, regardless of the epochs remaining. -/
theorem SGD_halving_schedule (acc : ℕ → ℤ) (epochs : ℕ) (eta : ℚ)
    (lr : LearningRateState) :
    ∃ k eta' lr',
      SGDgo (fun i => some (acc i)) 0 epochs eta lr = some (k, eta', lr')
      ∧ lr' = feedFrom acc 0 k lr
      ∧ eta' = eta / 2 ^ (lr'.num_halves - lr.num_halves)
      ∧ k ≤ epochs
      ∧ (k < epochs → 7 ≤ (feedFrom acc 0 k lr).num_halves)
      ∧ (∀ i, 0 < i → i < k → (feedFrom acc 0 i lr).num_halves < 7) :=
  SGDgo_spec acc epochs 0 eta lr

/-- The schedule-owning state of a `Network`: `__init__` (line 154)
creates `self.learning_rate = LearningRate(patience)` once, at
construction time. -/
structure NetworkSchedule : Type where
  learning_rate : LearningRateState

/-- The tracker-creating part of `Network.__init__(sizes, cost, reg,
patience)`. -/
def Network.init_schedule (patience : ℕ) : NetworkSchedule :=
  ⟨LearningRate.init patience⟩

/-- `Network.SGD` at the schedule level: the epoch loop reads the
tracker stored on the network (`self.learning_rate`) as its starting
state — there is no reinitialization anywhere in `SGD` — and the
mutated tracker remains on the network afterwards. -/
def Network.SGD_schedule (net : NetworkSchedule) (corrects : ℕ → Option ℤ)
    (epochs : ℕ) (eta : ℚ) : Option (ℕ × ℚ × NetworkSchedule) :=
  (SGDgo corrects 0 epochs eta net.learning_rate).map
    (fun t => (t.1, t.2.1, ⟨t.2.2⟩))

/-- C9 as stated is false on the code: construct `Network(patience=10)`
and run `SGD` for one epoch during which `evaluate` returns 3.  The
tracker stored on the network now has `best_accuracy = 3 ≠ 0`, and a
second `SGD` call on the same network starts from exactly this stored
state (`SGD` never reinitializes `self.learning_rate`), so at the start
of that call `best_accuracy` does not hold its initial value. -/
theorem SGD_tracker_not_reset_cex :
    (Network.SGD_schedule (Network.init_schedule 10) (fun _ => some 3) 1 1).map
        (fun t => t.2.2.learning_rate.best_accuracy) = some 3
    ∧ (3 : ℤ) ≠ 0 := by decide

/-- C9 (amended): the tracker is created once, at `Network`
construction, with `best_accuracy = 0`, `counter = 0` and
`num_halves = 0`; `SGD` does not reinitialize it — each call's epoch
loop starts from the tracker state currently stored on the network (the
initial state only for a freshly constructed network) and leaves behind
the fold of `should_halve` over the executed epochs' accuracies applied
to that stored state. -/
theorem SGD_tracker_lifetime (p : ℕ) (net : NetworkSchedule)
    (acc : ℕ → ℤ) (epochs : ℕ) (eta : ℚ) :
    (Network.init_schedule p).learning_rate = LearningRate.init p
    ∧ (LearningRate.init p).best_accuracy = 0
    ∧ (LearningRate.init p).counter = 0
    ∧ (LearningRate.init p).num_halves = 0
    ∧ ∃ k eta',
        Network.SGD_schedule net (fun i => some (acc i)) epochs eta
          = some (k, eta', ⟨feedFrom acc 0 k net.learning_rate⟩) := by
  refine ⟨rfl, rfl, rfl, rfl, ?_⟩
  obtain ⟨k, eta', lr', heq, hfeed, -⟩ :=
    SGDgo_spec acc epochs 0 eta net.learning_rate
  refine ⟨k, eta', ?_⟩
  simp only [Network.SGD_schedule, heq, Option.map_some']
  rw [hfeed]

theorem getD_zipWith {α β γ : Type} (f : α → β → γ) :
    ∀ (xs : List α) (ys : List β) (l : ℕ) (d : γ) (da : α) (db : β),
      l < xs.length → l < ys.length →
      (List.zipWith f xs ys).getD l d = f (xs.getD l da) (ys.getD l db) := by
  intro xs
  induction xs with
  | nil => intro ys l d da db hx _; simp at hx
  | cons x xs ih =>
      intro ys l d da db hx hy
      cases ys with
      | nil => simp at hy
      | cons y ys =>
          cases l with
          | zero => rfl
          | succ l =>
              simp only [List.zipWith_cons_cons, List.getD_cons_succ]
              exact ih ys l d da db (by simpa using hx) (by simpa using hy)

namespace L2_regularization

/-- `L2_regularization.update_step(eta, lmbda, n, weights, biases,
nabla_w, nabla_b, velocities, mu)`, lines 58-63:
`w = (1 - eta*lmbda/n)*w - eta*nw` and `b = b - eta*nb` per layer via
`zip`; velocities returned unchanged. -/
def update_step (eta lmbda : ℚ) (n : ℕ)
    (weights biases nabla_w nabla_b velocities : List Mat) (_mu : ℚ) :
    List Mat × List Mat × List Mat :=
  (List.zipWith
      (fun w nw => (fun i j => (1 - eta * lmbda / n) * w i j - eta * nw i j
        : Mat))
      weights nabla_w,
   List.zipWith (fun b nb => (fun i j => b i j - eta * nb i j : Mat))
      biases nabla_b,
   velocities)

end L2_regularization

namespace momentum

/-- `momentum.update_step(eta, lmbda, n, weights, biases, nabla_w,
nabla_b, velocities, mu)`, lines 67-71: `v = mu*v - eta*nw`, then
`w = w + v` with the new velocities, `b = b - eta*nb`. -/
def update_step (eta _lmbda : ℚ) (_n : ℕ)
    (weights biases nabla_w nabla_b velocities : List Mat) (mu : ℚ) :
    List Mat × List Mat × List Mat :=
  let velocities2 := List.zipWith
    (fun v nw => (fun i j => mu * v i j - eta * nw i j : Mat))
    velocities nabla_w
  (List.zipWith (fun w v => (fun i j => w i j + v i j : Mat))
      weights velocities2,
   List.zipWith (fun b nb => (fun i j => b i j - eta * nb i j : Mat))
      biases nabla_b,
   velocities2)

end momentum

namespace L1_regularization

/-- `L1_regularization.update_step(eta, lmbda, n, weights, biases,
nabla_w, nabla_b)`, lines 77-83:
`w = w - (eta*lmbda/n)*np.sign(w) - eta*nw` and `b = b - eta*nb`.  Note
that, unlike the other two strategies, this method accepts only SEVEN
parameters — no `velocities` and no `mu` — and returns a PAIR
`(weights, biases)` rather than a triple. -/
def update_step (eta lmbda : ℚ) (n : ℕ)
    (weights biases nabla_w nabla_b : List Mat) :
    List Mat × List Mat :=
  (List.zipWith
      (fun w nw =>
        (fun i j => w i j - (eta * lmbda / n) * npSign (w i j) - eta * nw i j
          : Mat))
      weights nabla_w,
   List.zipWith (fun b nb => (fun i j => b i j - eta * nb i j : Mat))
      biases nabla_b)

end L1_regularization

/-- The update-strategy class stored as `self.reg` at `Network`
construction. -/
inductive Reg : Type
  | L2_regularization : Reg
  | momentum : Reg
  | L1_regularization : Reg

/-- The call `self.reg.update_step(eta, lmbda, n, self.weights,
self.biases, nabla_w, nabla_b, self.velocities, mu)` made by
`update_mini_batch` (lines 230-240): nine arguments, result unpacked as
a triple.  `L2_regularization.update_step` and `momentum.update_step`
have exactly this signature.  `L1_regularization.update_step` accepts
only seven parameters and returns a pair, so with
`reg = L1_regularization` this call raises a `TypeError` in Python
(`update_step() takes 7 positional arguments but 9 were given`);
modelled as `none`. -/
def Reg.update_step_call (r : Reg) (eta lmbda : ℚ) (n : ℕ)
    (weights biases nabla_w nabla_b velocities : List Mat) (mu : ℚ) :
    Option (List Mat × List Mat × List Mat) :=
  match r with
  | Reg.L2_regularization =>
      some (L2_regularization.update_step eta lmbda n weights biases
        nabla_w nabla_b velocities mu)
  | Reg.momentum =>
      some (momentum.update_step eta lmbda n weights biases
        nabla_w nabla_b velocities mu)
  | Reg.L1_regularization => none

/-- `Network.update_mini_batch(mini_batch, eta, lmbda, n, mu)`, lines
219-240: the mini-batch's inputs and labels are stacked column-wise
into `X` and `Y` (given here already stacked, with batch width `m`),
`nabla_b, nabla_w = self.backprop(X, Y)` is computed, and the update is
delegated to `self.reg.update_step`; `none` when that call raises. -/
def Network.update_mini_batch (sig : ℚ → ℚ) (cost : CostFn) (reg : Reg)
    (layers : List Layer) (velocities : List Mat) (X Y : Mat) (m : ℕ)
    (eta lmbda : ℚ) (n : ℕ) (mu : ℚ) :
    Option (List Mat × List Mat × List Mat) :=
  let grads := Network.backprop sig cost layers X Y m
  Reg.update_step_call reg eta lmbda n (layers.map Layer.w)
    (layers.map Layer.b) grads.2 grads.1 velocities mu

/-- C3: the shared nine-argument, triple-returning operation that
`update_mini_batch` invokes exists for the L2 and momentum strategies —
with those, `update_mini_batch` succeeds on all inputs — but
`L1_regularization.update_step` accepts only seven parameters and
returns a pair, so `update_mini_batch` configured with the L1 strategy
raises a `TypeError`; evaluated here at a concrete input. -/
theorem update_mini_batch_strategy_interface :
    (∀ (sig : ℚ → ℚ) (cost : CostFn) (layers : List Layer)
        (velocities : List Mat) (X Y : Mat) (m : ℕ) (eta lmbda : ℚ)
        (n : ℕ) (mu : ℚ),
        (Network.update_mini_batch sig cost Reg.L2_regularization layers
            velocities X Y m eta lmbda n mu).isSome = true
      ∧ (Network.update_mini_batch sig cost Reg.momentum layers
            velocities X Y m eta lmbda n mu).isSome = true)
    ∧ Network.update_mini_batch (fun z => z) CostFn.crossEntropy
        Reg.L1_regularization [] [] mat0 mat0 1 1 0 1 0 = none :=
  ⟨fun _ _ _ _ _ _ _ _ _ _ _ => ⟨rfl, rfl⟩, rfl⟩

/-- C6: at every layer, the L2-regularized update returns weights
`(1 - η·λ/n)·w - η·∇w` and biases `b - η·∇b`, and returns the
velocities unchanged. -/
theorem L2_update_formula (eta lmbda : ℚ) (n : ℕ)
    (weights biases nabla_w nabla_b velocities : List Mat) (mu : ℚ)
    (l i j : ℕ) (_hn : 0 < n) (hw : l < weights.length)
    (hnw : l < nabla_w.length) (hb : l < biases.length)
    (hnb : l < nabla_b.length) :
    ((L2_regularization.update_step eta lmbda n weights biases nabla_w
        nabla_b velocities mu).1.getD l mat0) i j
      = (1 - eta * lmbda / n) * (weights.getD l mat0) i j
          - eta * (nabla_w.getD l mat0) i j
    ∧ ((L2_regularization.update_step eta lmbda n weights biases nabla_w
        nabla_b velocities mu).2.1.getD l mat0) i j
      = (biases.getD l mat0) i j - eta * (nabla_b.getD l mat0) i j
    ∧ (L2_regularization.update_step eta lmbda n weights biases nabla_w
        nabla_b velocities mu).2.2 = velocities := by
  refine ⟨?_, ?_, rfl⟩
  · exact congrFun (congrFun (getD_zipWith
      (fun w nw =>
        (fun i j => (1 - eta * lmbda / n) * w i j - eta * nw i j : Mat))
      weights nabla_w l mat0 mat0 mat0 hw hnw) i) j
  · exact congrFun (congrFun (getD_zipWith
      (fun b nb => (fun i j => b i j - eta * nb i j : Mat))
      biases nabla_b l mat0 mat0 mat0 hb hnb) i) j

/-- Witness for C6 at `η = 1, λ = 1, n = 2`, single-layer lists of zero
matrices, layer 0, entry (0,0). -/
theorem L2_update_formula_witness :
    0 < 2
    ∧ 0 < [mat0].length
    ∧ (((L2_regularization.update_step 1 1 2 [mat0] [mat0] [mat0] [mat0]
          [] 0).1.getD 0 mat0) 0 0
        = (1 - 1 * 1 / ((2 : ℕ) : ℚ)) * ([mat0].getD 0 mat0) 0 0
            - 1 * ([mat0].getD 0 mat0) 0 0
      ∧ ((L2_regularization.update_step 1 1 2 [mat0] [mat0] [mat0] [mat0]
          [] 0).2.1.getD 0 mat0) 0 0
        = ([mat0].getD 0 mat0) 0 0 - 1 * ([mat0].getD 0 mat0) 0 0
      ∧ (L2_regularization.update_step 1 1 2 [mat0] [mat0] [mat0] [mat0]
          [] 0).2.2 = []) :=
  ⟨by decide, by decide,
    L2_update_formula 1 1 2 [mat0] [mat0] [mat0] [mat0] [] 0 0 0 0
      (by decide) (by decide) (by decide) (by decide) (by decide)⟩

/-- C7: at every layer the momentum update computes `v' = μ·v - η·∇w`,
`w' = w + v'` (with the new velocity) and `b' = b - η·∇b`; and whenever
`μ = 0` the new weights are exactly the plain gradient-descent weights
`w - η·∇w`. -/
theorem momentum_update_formula (eta lmbda : ℚ) (n : ℕ)
    (weights biases nabla_w nabla_b velocities : List Mat) (mu : ℚ)
    (l i j : ℕ) (hw : l < weights.length) (hnw : l < nabla_w.length)
    (hb : l < biases.length) (hnb : l < nabla_b.length)
    (hv : l < velocities.length) :
    ((momentum.update_step eta lmbda n weights biases nabla_w nabla_b
        velocities mu).2.2.getD l mat0) i j
      = mu * (velocities.getD l mat0) i j
          - eta * (nabla_w.getD l mat0) i j
    ∧ ((momentum.update_step eta lmbda n weights biases nabla_w nabla_b
        velocities mu).1.getD l mat0) i j
      = (weights.getD l mat0) i j
          + ((momentum.update_step eta lmbda n weights biases nabla_w
              nabla_b velocities mu).2.2.getD l mat0) i j
    ∧ ((momentum.update_step eta lmbda n weights biases nabla_w nabla_b
        velocities mu).2.1.getD l mat0) i j
      = (biases.getD l mat0) i j - eta * (nabla_b.getD l mat0) i j
    ∧ (mu = 0 →
        ((momentum.update_step eta lmbda n weights biases nabla_w nabla_b
            velocities mu).1.getD l mat0) i j
          = (weights.getD l mat0) i j
              - eta * (nabla_w.getD l mat0) i j) := by
  have h2 : l < (List.zipWith
      (fun v nw => (fun i j => mu * v i j - eta * nw i j : Mat))
      velocities nabla_w).length := by
    rw [List.length_zipWith]; omega
  have hv2 := congrFun (congrFun (getD_zipWith
      (fun v nw => (fun i j => mu * v i j - eta * nw i j : Mat))
      velocities nabla_w l mat0 mat0 mat0 hv hnw) i) j
  have hw2 := congrFun (congrFun (getD_zipWith
      (fun w v => (fun i j => w i j + v i j : Mat))
      weights
      (List.zipWith
        (fun v nw => (fun i j => mu * v i j - eta * nw i j : Mat))
        velocities nabla_w)
      l mat0 mat0 mat0 hw h2) i) j
  have hb2 := congrFun (congrFun (getD_zipWith
      (fun b nb => (fun i j => b i j - eta * nb i j : Mat))
      biases nabla_b l mat0 mat0 mat0 hb hnb) i) j
  refine ⟨hv2, hw2, hb2, ?_⟩
  intro h0
  subst h0
  have hv2' : (List.zipWith
        (fun v nw => (fun i j => (0 : ℚ) * v i j - eta * nw i j : Mat))
        velocities nabla_w).getD l mat0 i j
      = 0 * (velocities.getD l mat0) i j
          - eta * (nabla_w.getD l mat0) i j := hv2
  have hw2' : ((momentum.update_step eta lmbda n weights biases nabla_w
        nabla_b velocities 0).1.getD l mat0) i j
      = (weights.getD l mat0) i j
          + (List.zipWith
              (fun v nw => (fun i j => (0 : ℚ) * v i j - eta * nw i j : Mat))
              velocities nabla_w).getD l mat0 i j := hw2
  rw [hw2', hv2']
  ring

/-- Witness for C7 at `η = 1, λ = 0, n = 1, μ = 0`, single-layer lists
of zero matrices, layer 0, entry (0,0). -/
theorem momentum_update_formula_witness :
    0 < [mat0].length
    ∧ (((momentum.update_step 1 0 1 [mat0] [mat0] [mat0] [mat0] [mat0]
          0).2.2.getD 0 mat0) 0 0
        = 0 * ([mat0].getD 0 mat0) 0 0 - 1 * ([mat0].getD 0 mat0) 0 0
      ∧ ((momentum.update_step 1 0 1 [mat0] [mat0] [mat0] [mat0] [mat0]
          0).1.getD 0 mat0) 0 0
        = ([mat0].getD 0 mat0) 0 0
            + ((momentum.update_step 1 0 1 [mat0] [mat0] [mat0] [mat0]
                [mat0] 0).2.2.getD 0 mat0) 0 0
      ∧ ((momentum.update_step 1 0 1 [mat0] [mat0] [mat0] [mat0] [mat0]
          0).2.1.getD 0 mat0) 0 0
        = ([mat0].getD 0 mat0) 0 0 - 1 * ([mat0].getD 0 mat0) 0 0
      ∧ ((0 : ℚ) = 0 →
          ((momentum.update_step 1 0 1 [mat0] [mat0] [mat0] [mat0] [mat0]
              0).1.getD 0 mat0) 0 0
            = ([mat0].getD 0 mat0) 0 0 - 1 * ([mat0].getD 0 mat0) 0 0)) :=
  ⟨by decide,
    momentum_update_formula 1 0 1 [mat0] [mat0] [mat0] [mat0] [mat0] 0 0 0 0
      (by decide) (by decide) (by decide) (by decide) (by decide)⟩

theorem backpropAux_delta (sig : ℚ → ℚ) (cost : CostFn) (m : ℕ) (Y : Mat) :
    ∀ (layers : List Layer) (a : Mat),
      (backpropAux sig cost m Y layers a).delta
        = deltaSuffix sig cost Y layers a := by
  intro layers
  induction layers with
  | nil => intro a; rfl
  | cons L rest ih =>
      intro a
      cases rest with
      | nil => rfl
      | cons L2 rest' =>
          simp only [backpropAux, deltaSuffix]
          rw [ih]
          rfl

theorem backpropAux_nb_cons (sig : ℚ → ℚ) (cost : CostFn) (m : ℕ) (Y : Mat)
    (L : Layer) (rest : List Layer) (a : Mat) :
    (backpropAux sig cost m Y (L :: rest) a).nabla_b
      = meanCols m ((backpropAux sig cost m Y (L :: rest) a).delta)
          :: (backpropAux sig cost m Y rest (layerA sig L a)).nabla_b := by
  cases rest <;> rfl

theorem backpropAux_nw_cons (sig : ℚ → ℚ) (cost : CostFn) (m : ℕ) (Y : Mat)
    (L : Layer) (rest : List Layer) (a : Mat) :
    (backpropAux sig cost m Y (L :: rest) a).nabla_w
      = divMat
          (matMul m ((backpropAux sig cost m Y (L :: rest) a).delta)
            (transpose a)) m
          :: (backpropAux sig cost m Y rest (layerA sig L a)).nabla_w := by
  cases rest <;> rfl

theorem backpropAux_nb_getD (sig : ℚ → ℚ) (cost : CostFn) (m : ℕ) (Y : Mat) :
    ∀ (layers : List Layer) (a : Mat) (l : ℕ), l < layers.length →
      (backpropAux sig cost m Y layers a).nabla_b.getD l mat0
        = meanCols m (deltaSuffix sig cost Y (layers.drop l)
            ((Network.activations sig layers a).getD l mat0)) := by
  intro layers
  induction layers with
  | nil => intro a l h; simp at h
  | cons L rest ih =>
      intro a l h
      cases l with
      | zero =>
          rw [backpropAux_nb_cons]
          simp only [List.getD_cons_zero, List.drop_zero,
            Network.activations]
          rw [backpropAux_delta]
      | succ l =>
          rw [backpropAux_nb_cons]
          simp only [List.getD_cons_succ, List.drop_succ_cons,
            Network.activations]
          exact ih (layerA sig L a) l (by simpa using h)

theorem backpropAux_nw_getD (sig : ℚ → ℚ) (cost : CostFn) (m : ℕ) (Y : Mat) :
    ∀ (layers : List Layer) (a : Mat) (l : ℕ), l < layers.length →
      (backpropAux sig cost m Y layers a).nabla_w.getD l mat0
        = divMat
            (matMul m
              (deltaSuffix sig cost Y (layers.drop l)
                ((Network.activations sig layers a).getD l mat0))
              (transpose ((Network.activations sig layers a).getD l mat0)))
            m := by
  intro layers
  induction layers with
  | nil => intro a l h; simp at h
  | cons L rest ih =>
      intro a l h
      cases l with
      | zero =>
          rw [backpropAux_nw_cons]
          simp only [List.getD_cons_zero, List.drop_zero,
            Network.activations]
          rw [backpropAux_delta]
      | succ l =>
          rw [backpropAux_nw_cons]
          simp only [List.getD_cons_succ, List.drop_succ_cons,
            Network.activations]
          exact ih (layerA sig L a) l (by simpa using h)

theorem layerZ_colMat (L : Layer) (a : Mat) (s : ℕ) :
    layerZ L (colMat a s) = colMat (layerZ L a) s := by
  funext i j
  rfl

theorem layerA_colMat (sig : ℚ → ℚ) (L : Layer) (a : Mat) (s : ℕ) :
    layerA sig L (colMat a s) = colMat (layerA sig L a) s := by
  funext i j
  rfl

theorem matMul_colMat (k : ℕ) (A B : Mat) (s : ℕ) :
    matMul k A (colMat B s) = colMat (matMul k A B) s := by
  funext i j
  rfl

theorem costDelta_colMat (c : CostFn) (sig : ℚ → ℚ) (Z A Y : Mat) (s : ℕ) :
    c.delta sig (colMat Z s) (colMat A s) (colMat Y s)
      = colMat (c.delta sig Z A Y) s := by
  cases c <;> funext i j <;> rfl

theorem deltaSuffix_colMat (sig : ℚ → ℚ) (cost : CostFn) (Y : Mat) :
    ∀ (layers : List Layer) (a : Mat) (s : ℕ),
      deltaSuffix sig cost (colMat Y s) layers (colMat a s)
        = colMat (deltaSuffix sig cost Y layers a) s := by
  intro layers
  induction layers with
  | nil => intro a s; funext i j; rfl
  | cons L rest ih =>
      intro a s
      cases rest with
      | nil =>
          show cost.delta sig (layerZ L (colMat a s))
              (layerA sig L (colMat a s)) (colMat Y s) = _
          rw [layerZ_colMat, layerA_colMat, costDelta_colMat]
          rfl
      | cons L2 rest' =>
          show hadamard
              (matMul L2.fanOut (transpose L2.w)
                (deltaSuffix sig cost (colMat Y s) (L2 :: rest')
                  (layerA sig L (colMat a s))))
              (matSigp sig (layerZ L (colMat a s))) = _
          rw [layerA_colMat, ih (layerA sig L a) s, matMul_colMat,
            layerZ_colMat]
          funext i j
          rfl

theorem activations_colMat (sig : ℚ → ℚ) :
    ∀ (layers : List Layer) (a : Mat) (l s : ℕ),
      (Network.activations sig layers (colMat a s)).getD l mat0
        = colMat ((Network.activations sig layers a).getD l mat0) s := by
  intro layers
  induction layers with
  | nil =>
      intro a l s
      cases l with
      | zero => rfl
      | succ l =>
          simp only [Network.activations, List.getD_cons_succ,
            List.getD_nil]
          funext i j
          rfl
  | cons L rest ih =>
      intro a l s
      cases l with
      | zero => rfl
      | succ l =>
          simp only [Network.activations, List.getD_cons_succ]
          rw [layerA_colMat]
          exact ih (layerA sig L a) l s

/-- C1: for every network (any cost strategy, any sigmoid values) and
every non-empty column-stacked batch `X`, `Y` of width `m`, `backprop`
returns, at every layer: bias gradients equal to the mean over the `m`
samples of the per-sample error signals (the bias gradient `backprop`
computes on the single-column batch of sample `s` alone, which is that
sample's `δ`), and weight gradients equal to the layer's error signal
times the transposed previous-layer activations divided by the batch
size — the batch-mean convention, not a sum. -/
theorem backprop_batch_mean (sig : ℚ → ℚ) (cost : CostFn)
    (layers : List Layer) (X Y : Mat) (m : ℕ)
    (_hm : 0 < m) (l : ℕ) (hl : l < layers.length) (i j : ℕ) :
    ((Network.backprop sig cost layers X Y m).1.getD l mat0) i j
      = (∑ s ∈ Finset.range m,
          ((Network.backprop sig cost layers (colMat X s) (colMat Y s)
              1).1.getD l mat0) i j) / m
    ∧ ((Network.backprop sig cost layers X Y m).2.getD l mat0) i j
      = (matMul m
          (deltaSuffix sig cost Y (layers.drop l)
            ((Network.activations sig layers X).getD l mat0))
          (transpose ((Network.activations sig layers X).getD l mat0))) i j
          / m := by
  constructor
  · have hS : ∀ s : ℕ,
        ((Network.backprop sig cost layers (colMat X s) (colMat Y s)
            1).1.getD l mat0) i j
          = deltaSuffix sig cost Y (layers.drop l)
              ((Network.activations sig layers X).getD l mat0) i s := by
      intro s
      have h1 := backpropAux_nb_getD sig cost 1 (colMat Y s) layers
        (colMat X s) l hl
      have h2 : ((Network.backprop sig cost layers (colMat X s) (colMat Y s)
            1).1.getD l mat0) i j
          = meanCols 1 (deltaSuffix sig cost (colMat Y s) (layers.drop l)
              ((Network.activations sig layers (colMat X s)).getD l mat0))
              i j := by
        show ((backpropAux sig cost 1 (colMat Y s) layers
            (colMat X s)).nabla_b.getD l mat0) i j = _
        rw [h1]
      rw [h2, activations_colMat]
      rw [deltaSuffix_colMat sig cost Y (layers.drop l)
        ((Network.activations sig layers X).getD l mat0) s]
      simp only [meanCols, Finset.sum_range_one, Nat.cast_one, div_one]
      rfl
    have hL := backpropAux_nb_getD sig cost m Y layers X l hl
    have h0 : ((Network.backprop sig cost layers X Y m).1.getD l mat0) i j
        = meanCols m (deltaSuffix sig cost Y (layers.drop l)
            ((Network.activations sig layers X).getD l mat0)) i j := by
      show ((backpropAux sig cost m Y layers X).nabla_b.getD l mat0) i j = _
      rw [hL]
    rw [h0]
    simp only [meanCols]
    congr 1
    exact Finset.sum_congr rfl (fun s _ => (hS s).symm)
  · have hL := backpropAux_nw_getD sig cost m Y layers X l hl
    show ((backpropAux sig cost m Y layers X).nabla_w.getD l mat0) i j = _
    rw [hL]
    rfl

/-- Witness for C1: a one-layer network with 1×1 zero weight and bias, a
single-sample zero batch, the identity standing in for the sigmoid. -/
theorem backprop_batch_mean_witness :
    0 < 1
    ∧ 0 < [(⟨1, 1, mat0, mat0⟩ : Layer)].length
    ∧ (((Network.backprop (fun z => z) CostFn.crossEntropy
            [(⟨1, 1, mat0, mat0⟩ : Layer)] mat0 mat0 1).1.getD 0 mat0) 0 0
        = (∑ s ∈ Finset.range 1,
            ((Network.backprop (fun z => z) CostFn.crossEntropy
                [(⟨1, 1, mat0, mat0⟩ : Layer)] (colMat mat0 s)
                (colMat mat0 s) 1).1.getD 0 mat0) 0 0) / ((1 : ℕ) : ℚ)
      ∧ ((Network.backprop (fun z => z) CostFn.crossEntropy
            [(⟨1, 1, mat0, mat0⟩ : Layer)] mat0 mat0 1).2.getD 0 mat0) 0 0
        = (matMul 1
            (deltaSuffix (fun z => z) CostFn.crossEntropy mat0
              ([(⟨1, 1, mat0, mat0⟩ : Layer)].drop 0)
              ((Network.activations (fun z => z)
                  [(⟨1, 1, mat0, mat0⟩ : Layer)] mat0).getD 0 mat0))
            (transpose ((Network.activations (fun z => z)
                [(⟨1, 1, mat0, mat0⟩ : Layer)] mat0).getD 0 mat0))) 0 0
            / ((1 : ℕ) : ℚ)) :=
  ⟨by decide, by decide,
    backprop_batch_mean (fun z => z) CostFn.crossEntropy
      [(⟨1, 1, mat0, mat0⟩ : Layer)] mat0 mat0 1 (by decide) 0 (by decide)
      0 0⟩
